import Mathlib

/-! esp-csi: the heartbeat entry point `app_main`

Source: `src/main/main.c`

```c
void app_main(void)
{
    printf("ESP-CSI project started!\n");

    while (1) {
        vTaskDelay(1000 / portTICK_PERIOD_MS);
        printf("Running...\n");
    }
}
```

The program is embedded as a step machine.  The macro `portTICK_PERIOD_MS`
comes from the FreeRTOS port headers, which are not part of the repository; it
is taken as the parameter `p` (the tick period in milliseconds) everywhere.
`p` has type `TickType_t` (an unsigned machine integer); `1000 / p` never
exceeds `1000`, so the division cannot wrap and `Nat` division is exact.
Division by `p = 0` is undefined in C and is guarded with `Option`.

The observable effects are recorded in the state:
* `out`   : the characters written to standard output by `printf`;
* `trace` : the sequence of calls made to the host (`printf`, `vTaskDelay`);
* `clock` : a virtual clock in milliseconds, advanced by `vTaskDelay k` by
  `k * p` and by nothing else (printing takes no time).
-/

namespace EspCsi

/-! ## Data model -/

/-- Calls that `app_main` makes to its host environment. -/
inductive Event where
  | print (text : String)
  | delay (ticks : Nat)
  deriving DecidableEq

/-- Control location of `app_main`: before the banner (`STARTING`), at the head
of the `while (1)` loop (`HEARTBEAT`), or past the end of the function body
(`RETURNED`). -/
inductive Phase where
  | STARTING
  | HEARTBEAT
  | RETURNED
  deriving DecidableEq

/-- Machine state: control location plus the recorded effects. -/
structure State where
  phase : Phase
  out : String
  clock : Nat
  trace : List Event
  deriving DecidableEq

/-- State in which the host invokes `app_main`, at host time `t0` (ms): nothing
has been written and no call has been made. -/
def init (t0 : Nat) : State :=
  { phase := Phase.STARTING, out := "", clock := t0, trace := [] }

/-! ## Operations -/

/-- Argument of the first `printf` call (line 7). -/
def bannerText : String := "ESP-CSI project started!\n"

/-- Argument of the `printf` call in the loop body (line 11). -/
def runningText : String := "Running...\n"

/-- The first output line, without its line break. -/
def bannerLine : String := "ESP-CSI project started!"

/-- The recurring output line, without its line break. -/
def runningLine : String := "Running..."

/-- Effect of `printf(text)`: the text is appended to standard output; the
return value is discarded by the caller. -/
def printf (text : String) (s : State) : State :=
  { s with out := s.out ++ text, trace := s.trace ++ [Event.print text] }

/-- Effect of `vTaskDelay(ticks)` on a host with tick period `p` ms: the task is
suspended for `ticks` tick periods. -/
def vTaskDelay (p ticks : Nat) (s : State) : State :=
  { s with clock := s.clock + ticks * p, trace := s.trace ++ [Event.delay ticks] }

/-- The expression `1000 / portTICK_PERIOD_MS` (line 10) with
`portTICK_PERIOD_MS = p`; `none` when the division is undefined. -/
def delayTicks (p : Nat) : Option Nat :=
  if p = 0 then none else some (1000 / p)

/-- The controlling expression of `while (1)` (line 9). -/
def loopCond : Int := 1

/-- One step of `app_main`.
* `STARTING`: print the banner and enter the loop.
* `HEARTBEAT`: test the loop condition; when it is non-zero run the body
  (`vTaskDelay` then `printf`) and come back to the loop head, otherwise leave
  the loop, after which the function body ends.
* `RETURNED`: no step. -/
def step (p : Nat) (s : State) : Option State :=
  match s.phase with
  | Phase.STARTING => some { printf bannerText s with phase := Phase.HEARTBEAT }
  | Phase.HEARTBEAT =>
    if loopCond ≠ 0 then
      match delayTicks p with
      | none => none
      | some k => some (printf runningText (vTaskDelay p k s))
    else
      some { s with phase := Phase.RETURNED }
  | Phase.RETURNED => none

/-- Run `fuel` steps from `s`; `none` as soon as a step is not defined. -/
def steps (p : Nat) : Nat → State → Option State
  | 0, s => some s
  | fuel + 1, s =>
    match step p s with
    | none => none
    | some s1 => steps p fuel s1

/-- The function `app_main` run for `fuel` steps from a cold start at host
time `t0`. -/
def app_main (p t0 fuel : Nat) : Option State :=
  steps p fuel (init t0)

/-- State after the banner and `n` completed iterations of the loop. -/
def afterIterations (p t0 n : Nat) : Option State :=
  app_main p t0 (n + 1)

/-- States reachable from the cold-start state by the step relation. -/
inductive Reachable (p t0 : Nat) : State → Prop where
  | start : Reachable p t0 (init t0)
  | next {s s1 : State} : Reachable p t0 s → step p s = some s1 → Reachable p t0 s1

/-! ## Observations -/

/-- Split a character stream into lines at each line break; `cur` holds the
characters of the line being read.  A last line without line break is kept
when it is not empty. -/
def splitLines : List Char → List Char → List (List Char)
  | cur, [] => if cur = [] then [] else [cur]
  | cur, c :: cs => if c = '\n' then cur :: splitLines [] cs else splitLines (cur ++ [c]) cs

/-- The output lines of a standard-output content. -/
def outputLines (out : String) : List String :=
  (splitLines [] out.data).map String.mk

/-- Number of `Running...` lines written so far. -/
def runningCount (s : State) : Nat :=
  (outputLines s.out).count runningLine

/-- Number of banner lines written so far. -/
def bannerCount (s : State) : Nat :=
  (outputLines s.out).count bannerLine

/-- Distance (ms) between the effective delay of `k` ticks of `p` ms and the
`1000` ms asked for. -/
def delayError (p k : Nat) : Int :=
  |((k * p : Nat) : Int) - 1000|

/-- The state observed at time `t` when it is the state after `n` iterations:
that state has been entered by time `t` and the next iteration completes only
after `t`. -/
def observedAt (p t0 t n : Nat) : Option State :=
  match afterIterations p t0 n, afterIterations p t0 (n + 1) with
  | some s, some s1 => if s.clock ≤ t ∧ t < s1.clock then some s else none
  | _, _ => none

/-- The trace expected after `n` loop iterations: the banner, then `n` times a
delay followed by a `Running...` line. -/
def heartbeatTrace (p n : Nat) : List Event :=
  Event.print bannerText ::
    (List.replicate n [Event.delay (1000 / p), Event.print runningText]).flatten

/-- Time stamps of the lines written, read off a trace: starting at time `t`,
every `delay k` moves the time on by `k * p` ms and every `print` is stamped
with the time at which it is reached (printing takes no time). -/
def emissions (p : Nat) : Nat → List Event → List (Nat × String)
  | _, [] => []
  | t, Event.print text :: es => (t, text) :: emissions p t es
  | t, Event.delay k :: es => emissions p (t + k * p) es

/-- The stamped lines of state `s` that were written at or before time `t`, for
a run started at time `t0`. -/
def emittedBy (p t0 t : Nat) (s : State) : List (Nat × String) :=
  (emissions p t0 s.trace).filter (fun e => decide (e.1 ≤ t))

/-- Times at which the `Running...` lines of state `s` were written, in order. -/
def runningTimes (p t0 : Nat) (s : State) : List Nat :=
  ((emissions p t0 s.trace).filter (fun e => decide (e.2 = runningText))).map Prod.fst

/-- Number of `Running...` lines of state `s` written at or before time `t`. -/
def runningCountBy (p t0 t : Nat) (s : State) : Nat :=
  (emittedBy p t0 t s).countP (fun e => decide (e.2 = runningText))

/-- Number of banner lines of state `s` written at or before time `t`. -/
def bannerCountBy (p t0 t : Nat) (s : State) : Nat :=
  (emittedBy p t0 t s).countP (fun e => decide (e.2 = bannerText))

/-- Closed form of the state after the banner and `n` loop iterations, for a
tick period `p ≥ 1`. -/
def heartbeatState (p t0 : Nat) : Nat → State
  | 0 => { printf bannerText (init t0) with phase := Phase.HEARTBEAT }
  | n + 1 => printf runningText (vTaskDelay p (1000 / p) (heartbeatState p t0 n))

/-! ## Basic facts about the step function -/

theorem delayTicks_pos {p : Nat} (hp : 1 ≤ p) : delayTicks p = some (1000 / p) := by
  unfold delayTicks
  rw [if_neg (by omega)]

theorem step_starting (p : Nat) (s : State) (h : s.phase = Phase.STARTING) :
    step p s = some { printf bannerText s with phase := Phase.HEARTBEAT } := by
  unfold step
  rw [h]

theorem step_heartbeat {p : Nat} (hp : 1 ≤ p) (s : State) (h : s.phase = Phase.HEARTBEAT) :
    step p s = some (printf runningText (vTaskDelay p (1000 / p) s)) := by
  unfold step
  rw [h]
  simp [loopCond, delayTicks_pos hp]

theorem steps_succ_last (p n : Nat) (s : State) :
    steps p (n + 1) s = (steps p n s).bind (step p) := by
  induction n generalizing s with
  | zero =>
    cases h : step p s <;> simp [steps, h]
  | succ n ih =>
    cases h : step p s with
    | none => simp [steps, h]
    | some s1 =>
      have h1 : steps p (n + 1 + 1) s = steps p (n + 1) s1 := by
        conv_lhs => unfold steps
        simp [h]
      have h2 : steps p (n + 1) s = steps p n s1 := by
        conv_lhs => unfold steps
        simp [h]
      rw [h1, h2, ih s1]

theorem heartbeatState_phase (p t0 n : Nat) :
    (heartbeatState p t0 n).phase = Phase.HEARTBEAT := by
  cases n <;> simp [heartbeatState, printf, vTaskDelay]
  rename_i n
  induction n with
  | zero => simp [heartbeatState, printf]
  | succ n ih => simpa [heartbeatState, printf, vTaskDelay] using ih

theorem afterIterations_eq {p : Nat} (hp : 1 ≤ p) (t0 n : Nat) :
    afterIterations p t0 n = some (heartbeatState p t0 n) := by
  induction n with
  | zero =>
    simp [afterIterations, app_main, steps, step_starting p (init t0) rfl, heartbeatState]
  | succ n ih =>
    unfold afterIterations app_main at ih ⊢
    rw [steps_succ_last, ih]
    simp [step_heartbeat hp _ (heartbeatState_phase p t0 n), heartbeatState]

theorem heartbeatState_clock (p t0 n : Nat) :
    (heartbeatState p t0 n).clock = t0 + n * (1000 / p * p) := by
  induction n with
  | zero => simp [heartbeatState, printf, init]
  | succ n ih =>
    simp only [heartbeatState, printf, vTaskDelay, ih]
    ring

theorem heartbeatState_trace (p t0 n : Nat) :
    (heartbeatState p t0 n).trace = heartbeatTrace p n := by
  induction n with
  | zero => simp [heartbeatState, printf, init, heartbeatTrace]
  | succ n ih =>
    simp only [heartbeatState, printf, vTaskDelay, ih, heartbeatTrace]
    rw [List.replicate_succ']
    simp

theorem heartbeatState_out (p t0 n : Nat) :
    (heartbeatState p t0 n).out.data =
      bannerText.data ++ (List.replicate n runningText.data).flatten := by
  induction n with
  | zero => simp [heartbeatState, printf, init]
  | succ n ih =>
    simp only [heartbeatState, printf, vTaskDelay, String.data_append, ih]
    rw [List.replicate_succ']
    simp

/-! ## Lines of the output stream -/

theorem splitLines_line (cur l rest : List Char) (hl : '\n' ∉ l) :
    splitLines cur (l ++ '\n' :: rest) = (cur ++ l) :: splitLines [] rest := by
  induction l generalizing cur with
  | nil => simp [splitLines]
  | cons c l ih =>
    have hc : c ≠ '\n' := fun h => hl (by simp [h])
    have hl1 : '\n' ∉ l := fun h => hl (by simp [h])
    simp [splitLines, hc, ih (cur ++ [c]) hl1]

theorem bannerText_data : bannerText.data = bannerLine.data ++ '\n' :: [] := by
  decide

theorem runningText_data : runningText.data = runningLine.data ++ '\n' :: [] := by
  decide

theorem splitLines_running (n : Nat) :
    splitLines [] (List.replicate n runningText.data).flatten =
      List.replicate n runningLine.data := by
  induction n with
  | zero => simp [splitLines]
  | succ n ih =>
    have hcons : ∀ rest : List Char,
        runningText.data ++ rest = runningLine.data ++ '\n' :: rest := by
      intro rest
      rw [runningText_data, List.append_assoc, List.singleton_append]
    rw [List.replicate_succ, List.flatten_cons, hcons, splitLines_line [] _ _ (by decide), ih,
      List.replicate_succ]
    simp

theorem outputLines_heartbeatState (p t0 n : Nat) :
    outputLines (heartbeatState p t0 n).out = bannerLine :: List.replicate n runningLine := by
  unfold outputLines
  rw [heartbeatState_out, bannerText_data, List.append_assoc, List.singleton_append,
    splitLines_line [] _ _ (by decide), splitLines_running]
  simp

theorem runningLine_ne_bannerLine : runningLine ≠ bannerLine := by
  decide

theorem runningCount_heartbeatState (p t0 n : Nat) :
    runningCount (heartbeatState p t0 n) = n := by
  unfold runningCount
  rw [outputLines_heartbeatState, List.count_cons, List.count_replicate_self]
  simp [runningLine_ne_bannerLine.symm]

theorem bannerCount_heartbeatState (p t0 n : Nat) :
    bannerCount (heartbeatState p t0 n) = 1 := by
  unfold bannerCount
  rw [outputLines_heartbeatState, List.count_cons, List.count_replicate]
  simp [runningLine_ne_bannerLine]

/-! ## Reachable states -/

theorem reachable_cases {p : Nat} (hp : 1 ≤ p) {t0 : Nat} {s : State}
    (h : Reachable p t0 s) : s = init t0 ∨ ∃ n, s = heartbeatState p t0 n := by
  induction h with
  | start => exact Or.inl rfl
  | next hr hs ih =>
    rcases ih with h0 | ⟨n, hn⟩
    · subst h0
      rw [step_starting p (init t0) rfl] at hs
      exact Or.inr ⟨0, (Option.some.inj hs).symm⟩
    · subst hn
      rw [step_heartbeat hp _ (heartbeatState_phase p t0 n)] at hs
      exact Or.inr ⟨n + 1, (Option.some.inj hs).symm⟩

theorem reachable_iff_app_main (p t0 : Nat) (s : State) :
    Reachable p t0 s ↔ ∃ fuel, app_main p t0 fuel = some s := by
  constructor
  · intro h
    induction h with
    | start => exact ⟨0, rfl⟩
    | next _ hs ih =>
      obtain ⟨fuel, hf⟩ := ih
      refine ⟨fuel + 1, ?_⟩
      unfold app_main at hf ⊢
      rw [steps_succ_last, hf]
      exact hs
  · rintro ⟨fuel, hf⟩
    induction fuel generalizing s with
    | zero =>
      have : init t0 = s := Option.some.inj hf
      rw [← this]
      exact Reachable.start
    | succ n ih =>
      unfold app_main at hf ih
      rw [steps_succ_last] at hf
      cases h0 : steps p n (init t0) with
      | none =>
        rw [h0] at hf
        cases hf
      | some s0 =>
        rw [h0] at hf
        exact Reachable.next (ih s0 h0) hf

theorem outputLines_init (t0 : Nat) : outputLines (init t0).out = [] := by
  simp [outputLines, init, splitLines]

theorem delayError_floor (p : Nat) :
    delayError p (1000 / p) = ((1000 % p : Nat) : Int) := by
  unfold delayError
  have h := Nat.div_add_mod 1000 p
  have hm : 1000 / p * p = p * (1000 / p) := Nat.mul_comm _ _
  have hle : ((1000 / p * p : Nat) : Int) - 1000 = -((1000 % p : Nat) : Int) := by
    omega
  rw [hle, abs_neg, abs_of_nonneg (by omega)]

theorem heartbeatTrace_length (p n : Nat) : (heartbeatTrace p n).length = 2 * n + 1 := by
  induction n with
  | zero => simp [heartbeatTrace]
  | succ n ih =>
    simp only [heartbeatTrace, List.replicate_succ, List.flatten_cons, List.length_cons,
      List.length_append, List.length_nil] at ih ⊢
    omega

theorem flatten_pairs_get (a b : Event) (n i : Nat) (hi : i < n) :
    (List.replicate n [a, b]).flatten[2 * i]? = some a ∧
      (List.replicate n [a, b]).flatten[2 * i + 1]? = some b := by
  induction n generalizing i with
  | zero => omega
  | succ n ih =>
    cases i with
    | zero => simp [List.replicate_succ]
    | succ i =>
      have h := ih i (by omega)
      have e1 : 2 * (i + 1) = (2 * i) + 1 + 1 := by ring
      rw [e1]
      simpa [List.replicate_succ] using h

/-! ## Output sequence -/

/-- C1: for every tick period `p ≥ 1` and every number `n` of completed loop
iterations, `app_main` reaches a state whose output lines are exactly the
banner followed by `n` copies of `Running...`; the first line is the banner,
the banner occurs exactly once, every later line is `Running...`, and in no
reachable state does any other line occur. -/
theorem C1_output_lines (p t0 n : Nat) (hp : 1 ≤ p) :
    (∃ s, afterIterations p t0 n = some s ∧
      outputLines s.out = bannerLine :: List.replicate n runningLine ∧
      (outputLines s.out).head? = some bannerLine ∧
      (outputLines s.out).count bannerLine = 1 ∧
      (∀ i, 1 ≤ i → i < (outputLines s.out).length →
        (outputLines s.out)[i]? = some runningLine)) ∧
    (∀ s, Reachable p t0 s → ∀ l ∈ outputLines s.out, l = bannerLine ∨ l = runningLine) := by
  refine ⟨⟨heartbeatState p t0 n, afterIterations_eq hp t0 n,
    outputLines_heartbeatState p t0 n, ?_, bannerCount_heartbeatState p t0 n, ?_⟩, ?_⟩
  · rw [outputLines_heartbeatState]
    rfl
  · intro i h1 hi
    rw [outputLines_heartbeatState] at hi ⊢
    obtain ⟨j, rfl⟩ : ∃ j, i = j + 1 := ⟨i - 1, by omega⟩
    simp only [List.length_cons, List.length_replicate] at hi
    rw [List.getElem?_cons_succ, List.getElem?_replicate]
    simp only [ite_eq_left_iff, not_lt]
    intro hj
    omega
  · intro s hs l hl
    rcases reachable_cases hp hs with h0 | ⟨m, hm⟩
    · subst h0
      rw [outputLines_init] at hl
      simp at hl
    · subst hm
      rw [outputLines_heartbeatState] at hl
      rcases List.mem_cons.mp hl with h | h
      · exact Or.inl h
      · exact Or.inr (List.eq_of_mem_replicate h)

/-- Witness of C1 at tick period 10 ms after three iterations. -/
theorem C1_output_lines_witness :
    (∃ s, afterIterations 10 0 3 = some s ∧
      outputLines s.out = bannerLine :: List.replicate 3 runningLine ∧
      (outputLines s.out).head? = some bannerLine ∧
      (outputLines s.out).count bannerLine = 1 ∧
      (∀ i, 1 ≤ i → i < (outputLines s.out).length →
        (outputLines s.out)[i]? = some runningLine)) ∧
    (∀ s, Reachable 10 0 s → ∀ l ∈ outputLines s.out, l = bannerLine ∨ l = runningLine) :=
  C1_output_lines 10 0 3 (by decide)

/-! ## Event trace -/

/-- C8: for every tick period `p ≥ 1` and every `n`, the event trace after `n`
loop iterations is the banner print followed by `n` repetitions of a delay of
`1000 / p` ticks and a `Running...` print: the first event is the banner print
(no delay precedes it), the trace has `2 n + 1` events, and for every `i < n`
event `2 i + 1` is the delay of `1000 / p` ticks and event `2 i + 2` the
`Running...` print. -/
theorem C8_event_trace (p t0 n : Nat) (hp : 1 ≤ p) :
    ∃ s, afterIterations p t0 n = some s ∧
      s.trace = Event.print bannerText ::
        (List.replicate n [Event.delay (1000 / p), Event.print runningText]).flatten ∧
      s.trace[0]? = some (Event.print bannerText) ∧
      s.trace.length = 2 * n + 1 ∧
      (∀ i, i < n → s.trace[2 * i + 1]? = some (Event.delay (1000 / p)) ∧
        s.trace[2 * i + 2]? = some (Event.print runningText)) := by
  refine ⟨heartbeatState p t0 n, afterIterations_eq hp t0 n, heartbeatState_trace p t0 n, ?_, ?_, ?_⟩
  · rw [heartbeatState_trace]
    simp [heartbeatTrace]
  · rw [heartbeatState_trace, heartbeatTrace_length]
  · intro i hi
    rw [heartbeatState_trace]
    unfold heartbeatTrace
    have h := flatten_pairs_get (Event.delay (1000 / p)) (Event.print runningText) n i hi
    rw [List.getElem?_cons_succ, List.getElem?_cons_succ]
    exact h

/-- Witness of C8 at tick period 10 ms after two iterations. -/
theorem C8_event_trace_witness :
    ∃ s, afterIterations 10 0 2 = some s ∧
      s.trace = Event.print bannerText ::
        (List.replicate 2 [Event.delay (1000 / 10), Event.print runningText]).flatten ∧
      s.trace[0]? = some (Event.print bannerText) ∧
      s.trace.length = 2 * 2 + 1 ∧
      (∀ i, i < 2 → s.trace[2 * i + 1]? = some (Event.delay (1000 / 10)) ∧
        s.trace[2 * i + 2]? = some (Event.print runningText)) :=
  C8_event_trace 10 0 2 (by decide)

/-! ## Non-termination -/

/-- C4: `app_main` never returns.  For every tick period `p ≥ 1`, every state
reachable from the cold-start state has a successor and is not the `RETURNED`
state; every `HEARTBEAT` state has a successor, and every successor of a
`HEARTBEAT` state is a `HEARTBEAT` state; after any number of iterations the
machine is defined and in `HEARTBEAT`. -/
theorem C4_never_returns (p t0 : Nat) (hp : 1 ≤ p) :
    (∀ s, Reachable p t0 s → ∃ s1, step p s = some s1) ∧
    (∀ s, Reachable p t0 s → s.phase ≠ Phase.RETURNED) ∧
    (∀ s, s.phase = Phase.HEARTBEAT → ∃ s1, step p s = some s1) ∧
    (∀ s s1, s.phase = Phase.HEARTBEAT → step p s = some s1 → s1.phase = Phase.HEARTBEAT) ∧
    (∀ n, ∃ s, afterIterations p t0 n = some s ∧ s.phase = Phase.HEARTBEAT) ∧
    (∀ fuel, ∃ s, app_main p t0 fuel = some s ∧ s.phase ≠ Phase.RETURNED) := by
  have hphase : ∀ s, Reachable p t0 s → s.phase = Phase.STARTING ∨ s.phase = Phase.HEARTBEAT := by
    intro s hs
    rcases reachable_cases hp hs with h0 | ⟨m, hm⟩
    · exact Or.inl (by rw [h0]; rfl)
    · exact Or.inr (by rw [hm]; exact heartbeatState_phase p t0 m)
  refine ⟨?_, ?_, ?_, ?_, ?_, ?_⟩
  · intro s hs
    rcases hphase s hs with h | h
    · exact ⟨_, step_starting p s h⟩
    · exact ⟨_, step_heartbeat hp s h⟩
  · intro s hs hret
    rcases hphase s hs with h | h <;> rw [hret] at h <;> cases h
  · intro s h
    exact ⟨_, step_heartbeat hp s h⟩
  · intro s s1 h hs
    rw [step_heartbeat hp s h] at hs
    rw [← Option.some.inj hs]
    simpa [printf, vTaskDelay] using h
  · intro n
    exact ⟨_, afterIterations_eq hp t0 n, heartbeatState_phase p t0 n⟩
  · intro fuel
    cases fuel with
    | zero => exact ⟨init t0, rfl, by simp [init]⟩
    | succ n =>
      refine ⟨heartbeatState p t0 n, afterIterations_eq hp t0 n, ?_⟩
      rw [heartbeatState_phase]
      simp

/-- Witness of C4 at tick period 10 ms. -/
theorem C4_never_returns_witness :
    (∀ s, Reachable 10 0 s → ∃ s1, step 10 s = some s1) ∧
    (∀ s, Reachable 10 0 s → s.phase ≠ Phase.RETURNED) ∧
    (∀ s, s.phase = Phase.HEARTBEAT → ∃ s1, step 10 s = some s1) ∧
    (∀ s s1, s.phase = Phase.HEARTBEAT → step 10 s = some s1 → s1.phase = Phase.HEARTBEAT) ∧
    (∀ n, ∃ s, afterIterations 10 0 n = some s ∧ s.phase = Phase.HEARTBEAT) ∧
    (∀ fuel, ∃ s, app_main 10 0 fuel = some s ∧ s.phase ≠ Phase.RETURNED) :=
  C4_never_returns 10 0 (by decide)

/-! ## The tick count `1000 / portTICK_PERIOD_MS` -/

/-- C9: the tick count passed to `vTaskDelay` is defined and at least `1`
exactly when `1 ≤ p ≤ 1000`; for `p > 1000` it is `0`, and a loop iteration
then leaves the clock unchanged (a delay of `0` ticks); for `p = 0` the
division is undefined and a loop iteration has no result. -/
theorem C9_tick_count_range :
    (∀ p, (∃ k, delayTicks p = some k ∧ 1 ≤ k) ↔ (1 ≤ p ∧ p ≤ 1000)) ∧
    (∀ p, 1000 < p → delayTicks p = some 0 ∧
      ∀ s, s.phase = Phase.HEARTBEAT → ∃ s1, step p s = some s1 ∧ s1.clock = s.clock ∧
        s1.trace = s.trace ++ [Event.delay 0, Event.print runningText]) ∧
    delayTicks 0 = none ∧
    (∀ s, s.phase = Phase.HEARTBEAT → step 0 s = none) := by
  refine ⟨?_, ?_, rfl, ?_⟩
  · intro p
    constructor
    · rintro ⟨k, hk, h1⟩
      unfold delayTicks at hk
      by_cases h0 : p = 0
      · rw [if_pos h0] at hk
        cases hk
      · rw [if_neg h0] at hk
        have hk1 : 1000 / p = k := Option.some.inj hk
        have hpos : 0 < 1000 / p := by omega
        have hle : p ≤ 1000 := by
          by_contra hgt
          rw [Nat.div_eq_of_lt (by omega)] at hpos
          omega
        omega
    · rintro ⟨h1, h2⟩
      exact ⟨1000 / p, delayTicks_pos h1, Nat.div_pos h2 (by omega)⟩
  · intro p hp
    have hz : 1000 / p = 0 := Nat.div_eq_of_lt hp
    have hd : delayTicks p = some 0 := by
      rw [delayTicks_pos (by omega), hz]
    refine ⟨hd, ?_⟩
    intro s hs
    refine ⟨_, step_heartbeat (by omega) s hs, ?_, ?_⟩
    · simp [printf, vTaskDelay, hz]
    · simp [printf, vTaskDelay, hz]
  · intro s hs
    unfold step
    rw [hs]
    simp [loopCond, delayTicks]

/-- C3: for every tick period `p ≥ 1`, the clock advances by `(1000 / p) * p`
ms between the states after `n` and after `n + 1` loop iterations (one more
`Running...` line is written), and that time is within one tick period of
`1000` ms. -/
theorem C3_interval_within_one_tick (p t0 n : Nat) (hp : 1 ≤ p) :
    ∃ s s1, afterIterations p t0 n = some s ∧ afterIterations p t0 (n + 1) = some s1 ∧
      runningCount s1 = runningCount s + 1 ∧
      s1.clock = s.clock + 1000 / p * p ∧
      |((s1.clock : Int) - (s.clock : Int)) - 1000| ≤ (p : Int) ∧
      delayError p (1000 / p) ≤ (p : Int) := by
  have herr : delayError p (1000 / p) ≤ (p : Int) := by
    rw [delayError_floor]
    have := Nat.mod_lt 1000 (show p > 0 by omega)
    omega
  refine ⟨heartbeatState p t0 n, heartbeatState p t0 (n + 1), afterIterations_eq hp t0 n,
    afterIterations_eq hp t0 (n + 1), ?_, ?_, ?_, herr⟩
  · rw [runningCount_heartbeatState, runningCount_heartbeatState]
  · rw [heartbeatState_clock, heartbeatState_clock]
    ring
  · rw [heartbeatState_clock, heartbeatState_clock]
    have h : ((t0 + (n + 1) * (1000 / p * p) : Nat) : Int) - ((t0 + n * (1000 / p * p) : Nat) : Int)
        = ((1000 / p * p : Nat) : Int) := by
      push_cast
      ring
    rw [h]
    exact herr

/-- Witness of C3 at tick period 7 ms. -/
theorem C3_interval_within_one_tick_witness :
    ∃ s s1, afterIterations 7 0 2 = some s ∧ afterIterations 7 0 (2 + 1) = some s1 ∧
      runningCount s1 = runningCount s + 1 ∧
      s1.clock = s.clock + 1000 / 7 * 7 ∧
      |((s1.clock : Int) - (s.clock : Int)) - 1000| ≤ ((7 : Nat) : Int) ∧
      delayError 7 (1000 / 7) ≤ ((7 : Nat) : Int) :=
  C3_interval_within_one_tick 7 0 2 (by decide)

/-- C2 as stated fails: with a tick period of 7 ms the program asks for
`1000 / 7 = 142` ticks, an effective delay of 994 ms (6 ms from 1000 ms), while
143 ticks give 1001 ms (1 ms from 1000 ms). -/
theorem C2_counterexample :
    delayTicks 7 = some 142 ∧ delayError 7 142 = 6 ∧ delayError 7 143 = 1 ∧
      ¬ (delayError 7 142 ≤ delayError 7 143) := by
  refine ⟨rfl, ?_, ?_, ?_⟩ <;> simp [delayError]

/-- C2 (amended): for every tick period `p ≥ 1`, the tick count `1000 / p`
gives the effective delay closest to 1000 ms among the delays that do not
exceed 1000 ms: `(1000 / p) * p ≤ 1000`, and for every tick count `k` with
`k * p ≤ 1000` the delay of `1000 / p` ticks is at least as close to 1000 ms
as that of `k` ticks. -/
theorem C2_floor_closest_below (p : Nat) (hp : 1 ≤ p) :
    ∃ d, delayTicks p = some d ∧ d = 1000 / p ∧ d * p ≤ 1000 ∧
      ∀ k, k * p ≤ 1000 → delayError p d ≤ delayError p k := by
  refine ⟨1000 / p, delayTicks_pos hp, rfl, Nat.div_mul_le_self 1000 p, ?_⟩
  intro k hk
  rw [delayError_floor]
  unfold delayError
  have hkd : k ≤ 1000 / p := (Nat.le_div_iff_mul_le (by omega)).mpr hk
  have hmul : k * p ≤ 1000 / p * p := Nat.mul_le_mul_right p hkd
  have hdm := Nat.div_add_mod 1000 p
  have hcomm : p * (1000 / p) = 1000 / p * p := Nat.mul_comm _ _
  have habs : |((k * p : Nat) : Int) - 1000| = 1000 - ((k * p : Nat) : Int) := by
    rw [abs_of_nonpos (by omega)]
    ring
  rw [habs]
  omega

/-- Witness of the amended C2 at tick period 7 ms. -/
theorem C2_floor_closest_below_witness :
    ∃ d, delayTicks 7 = some d ∧ d = 1000 / 7 ∧ d * 7 ≤ 1000 ∧
      ∀ k, k * 7 ≤ 1000 → delayError 7 d ≤ delayError 7 k :=
  C2_floor_closest_below 7 (by decide)

/-! ## Virtual clock -/

theorem observedAt_eq {p : Nat} (hp : 1 ≤ p) (t0 t n : Nat) :
    observedAt p t0 t n =
      if t0 + n * (1000 / p * p) ≤ t ∧ t < t0 + (n + 1) * (1000 / p * p)
      then some (heartbeatState p t0 n) else none := by
  unfold observedAt
  rw [afterIterations_eq hp, afterIterations_eq hp]
  simp only [heartbeatState_clock]

theorem observedAt_some {p : Nat} (hp : 1 ≤ p) {t0 t n : Nat} {s : State}
    (h : observedAt p t0 t n = some s) :
    s = heartbeatState p t0 n ∧ t0 + n * (1000 / p * p) ≤ t ∧
      t < t0 + (n + 1) * (1000 / p * p) := by
  rw [observedAt_eq hp] at h
  by_cases hc : t0 + n * (1000 / p * p) ≤ t ∧ t < t0 + (n + 1) * (1000 / p * p)
  · rw [if_pos hc] at h
    exact ⟨(Option.some.inj h).symm, hc⟩
  · rw [if_neg hc] at h
    cases h

theorem observedAt_index {p : Nat} (hp : 1 ≤ p) {t0 x n : Nat} {s : State}
    (h : observedAt p t0 (t0 + x) n = some s) : n = x / (1000 / p * p) := by
  obtain ⟨-, h1, h2⟩ := observedAt_some hp h
  exact (Nat.div_eq_of_lt_le (by omega) (by omega)).symm

theorem heartbeatState_clock_of_dvd {p : Nat} (hd : p ∣ 1000) (t0 n : Nat) :
    (heartbeatState p t0 n).clock = t0 + n * 1000 := by
  rw [heartbeatState_clock, Nat.div_mul_cancel hd]

/-! ## Time stamps of the lines -/

theorem emissions_loop (p q : Nat) (r : String) (t n : Nat) :
    emissions p t (List.replicate n [Event.delay q, Event.print r]).flatten =
      (List.range n).map (fun i => (t + (i + 1) * (q * p), r)) := by
  induction n generalizing t with
  | zero => simp [emissions]
  | succ n ih =>
    have hstep : emissions p t
        ([Event.delay q, Event.print r] ++
          (List.replicate n [Event.delay q, Event.print r]).flatten) =
        (t + q * p, r) ::
          emissions p (t + q * p) (List.replicate n [Event.delay q, Event.print r]).flatten := by
      simp only [List.cons_append, emissions]
      rfl
    rw [List.replicate_succ, List.flatten_cons, hstep, ih, List.range_succ_eq_map,
      List.map_cons, List.map_map]
    refine congrArg₂ _ (by ring_nf) ?_
    apply List.map_congr_left
    intro i _
    simp only [Function.comp, Nat.succ_eq_add_one]
    ring_nf

theorem emissions_heartbeatState (p t0 n : Nat) :
    emissions p t0 (heartbeatState p t0 n).trace =
      (t0, bannerText) ::
        (List.range n).map (fun i => (t0 + (i + 1) * (1000 / p * p), runningText)) := by
  rw [heartbeatState_trace]
  unfold heartbeatTrace
  simp only [emissions, emissions_loop]

theorem bannerText_ne_runningText : bannerText ≠ runningText := by
  decide

theorem runningTimes_heartbeatState (p t0 n : Nat) :
    runningTimes p t0 (heartbeatState p t0 n) =
      (List.range n).map (fun i => t0 + (i + 1) * (1000 / p * p)) := by
  unfold runningTimes
  rw [emissions_heartbeatState, List.filter_cons_of_neg (by simpa using bannerText_ne_runningText),
    List.filter_map, List.map_map]
  rw [List.filter_eq_self.mpr (by intro i _; simp)]
  rfl

theorem filter_range_lt (n c : Nat) :
    (List.range n).filter (fun i => decide (i < c)) = List.range (min n c) := by
  induction n with
  | zero => simp
  | succ n ih =>
    rw [List.range_succ, List.filter_append, ih]
    by_cases h : n < c
    · have e1 : min n c = n := by omega
      have e2 : min (n + 1) c = n + 1 := by omega
      rw [e1, e2, List.range_succ]
      simp [h]
    · have e1 : min n c = c := by omega
      have e2 : min (n + 1) c = c := by omega
      rw [e1, e2]
      simp [h]

theorem emittedBy_heartbeatState (p t0 x n : Nat) (hd : 0 < 1000 / p * p) :
    emittedBy p t0 (t0 + x) (heartbeatState p t0 n) =
      (t0, bannerText) :: (List.range (min n (x / (1000 / p * p)))).map
        (fun i => (t0 + (i + 1) * (1000 / p * p), runningText)) := by
  unfold emittedBy
  rw [emissions_heartbeatState, List.filter_cons_of_pos (by simp), List.filter_map,
    ← filter_range_lt]
  congr 2
  apply List.filter_congr
  intro i _
  simp only [Function.comp, decide_eq_decide]
  rw [Nat.lt_iff_add_one_le, Nat.le_div_iff_mul_le hd]
  omega

theorem runningCountBy_heartbeatState (p t0 x n : Nat) (hd : 0 < 1000 / p * p) :
    runningCountBy p t0 (t0 + x) (heartbeatState p t0 n) = min n (x / (1000 / p * p)) := by
  unfold runningCountBy
  rw [emittedBy_heartbeatState p t0 x n hd,
    List.countP_cons_of_neg _ _ (by simpa using bannerText_ne_runningText), List.countP_map,
    List.countP_eq_length.mpr (by intro i _; simp), List.length_range]

theorem bannerCountBy_heartbeatState (p t0 x n : Nat) (hd : 0 < 1000 / p * p) :
    bannerCountBy p t0 (t0 + x) (heartbeatState p t0 n) = 1 := by
  unfold bannerCountBy
  rw [emittedBy_heartbeatState p t0 x n hd, List.countP_cons_of_pos _ _ (by simp),
    List.countP_map, List.countP_eq_zero.mpr]
  intro i _
  simpa using bannerText_ne_runningText.symm

/-- C5 as stated fails: with a tick period of 7 ms each iteration delays
`1000 / 7 = 142` ticks, i.e. 994 ms, so the `k`-th `Running...` line is written
at `k * 994` ms; line 402 is written at 399588 ms and line 403 at 400582 ms, so
after 400 seconds 402 lines have been written, which differs from 400 by 2. -/
theorem C5_counterexample :
    (∃ s, afterIterations 7 0 403 = some s ∧
      (runningTimes 7 0 s)[401]? = some 399588 ∧ (runningTimes 7 0 s)[402]? = some 400582) ∧
    (∀ n s, 402 ≤ n → afterIterations 7 0 n = some s →
      runningCountBy 7 0 (1000 * 400) s = 402 ∧
      ¬ (runningCountBy 7 0 (1000 * 400) s ≤ 400 + 1 ∧
        400 ≤ runningCountBy 7 0 (1000 * 400) s + 1)) := by
  constructor
  · refine ⟨heartbeatState 7 0 403, afterIterations_eq (by decide) 0 403, ?_, ?_⟩ <;>
      rw [runningTimes_heartbeatState, List.getElem?_map, List.getElem?_range (by decide)] <;>
      rfl
  · intro n s hn hs
    rw [afterIterations_eq (by decide)] at hs
    have hs1 : heartbeatState 7 0 n = s := Option.some.inj hs
    have hc : runningCountBy 7 0 (1000 * 400) s = 402 := by
      have h := runningCountBy_heartbeatState 7 0 (1000 * 400) n (by decide)
      rw [Nat.zero_add, hs1] at h
      rw [h]
      have e : 1000 * 400 / (1000 / 7 * 7) = 402 := by decide
      rw [e]
      omega
    rw [hc]
    exact ⟨rfl, by omega⟩

/-- C5 (amended): for every tick period `1 ≤ p ≤ 1000` and every whole number
of seconds `T`, the number of `Running...` lines written at or before `T`
seconds after the start is `c = 1000 * T / ((1000 / p) * p)` in every run of
at least `c` iterations, and exactly one banner line has been written by
then; the state observed at that time is the one after `c` iterations and no
other, with `c` lines in its output.  `c` is at least `T`, it is `T` when `p` divides 1000,
and it is at most `T + 1` exactly when
`T * (1000 % p) < 2 * (1000 - 1000 % p)`. -/
theorem C5_running_count (p t0 T : Nat) (hp : 1 ≤ p) (hp2 : p ≤ 1000) :
    ∃ c, c = 1000 * T / (1000 / p * p) ∧
      (∀ n, c ≤ n → ∃ s, afterIterations p t0 n = some s ∧
        runningCountBy p t0 (t0 + 1000 * T) s = c ∧
        bannerCountBy p t0 (t0 + 1000 * T) s = 1) ∧
      (∃ s, observedAt p t0 (t0 + 1000 * T) c = some s ∧ runningCount s = c ∧
        bannerCount s = 1) ∧
      (∀ m s1, observedAt p t0 (t0 + 1000 * T) m = some s1 → m = c) ∧
      T ≤ c ∧
      (c ≤ T + 1 ↔ T * (1000 % p) < 2 * (1000 - 1000 % p)) ∧
      (p ∣ 1000 → c = T) := by
  have hdm : 1000 / p * p + 1000 % p = 1000 := by
    rw [Nat.mul_comm]
    exact Nat.div_add_mod 1000 p
  have hq : 1 ≤ 1000 / p := Nat.div_pos hp2 (by omega)
  have hd : 0 < 1000 / p * p := Nat.mul_pos hq (by omega)
  refine ⟨1000 * T / (1000 / p * p), rfl, ?_, ?_, ?_, ?_, ?_, ?_⟩
  · intro n hn
    refine ⟨heartbeatState p t0 n, afterIterations_eq hp t0 n, ?_,
      bannerCountBy_heartbeatState p t0 (1000 * T) n hd⟩
    rw [runningCountBy_heartbeatState p t0 (1000 * T) n hd]
    omega
  · refine ⟨heartbeatState p t0 (1000 * T / (1000 / p * p)), ?_,
      runningCount_heartbeatState _ _ _, bannerCount_heartbeatState _ _ _⟩
    rw [observedAt_eq hp, if_pos]
    constructor
    · have := Nat.div_mul_le_self (1000 * T) (1000 / p * p)
      omega
    · have := @Nat.lt_div_mul_add (1000 * T) (1000 / p * p) hd
      have e : (1000 * T / (1000 / p * p) + 1) * (1000 / p * p) =
          1000 * T / (1000 / p * p) * (1000 / p * p) + 1000 / p * p := by ring
      omega
  · intro m s1 h
    exact observedAt_index hp h
  · generalize 1000 / p * p = d at hdm hd
    generalize 1000 % p = r at hdm
    have hTd : 1000 * T = T * d + T * r := by
      rw [← hdm]
      ring
    rw [Nat.le_div_iff_mul_le hd]
    omega
  · generalize 1000 / p * p = d at hdm hd
    generalize 1000 % p = r at hdm
    have hTd : 1000 * T = T * d + T * r := by
      rw [← hdm]
      ring
    have e : (T + 2) * d = T * d + 2 * d := by ring
    rw [← Nat.lt_succ_iff, Nat.div_lt_iff_lt_mul hd]
    constructor
    · intro h
      have h1 : 1000 * T < (T + 2) * d := h
      omega
    · intro h
      show 1000 * T < (T + 2) * d
      omega
  · intro hdvd
    rw [Nat.div_mul_cancel hdvd, Nat.mul_div_cancel_left T (by decide)]

/-- Witness of the amended C5 at tick period 7 ms after 300 seconds. -/
theorem C5_running_count_witness :
    ∃ c, c = 1000 * 300 / (1000 / 7 * 7) ∧
      (∀ n, c ≤ n → ∃ s, afterIterations 7 0 n = some s ∧
        runningCountBy 7 0 (0 + 1000 * 300) s = c ∧
        bannerCountBy 7 0 (0 + 1000 * 300) s = 1) ∧
      (∃ s, observedAt 7 0 (0 + 1000 * 300) c = some s ∧ runningCount s = c ∧
        bannerCount s = 1) ∧
      (∀ m s1, observedAt 7 0 (0 + 1000 * 300) m = some s1 → m = c) ∧
      300 ≤ c ∧
      (c ≤ 300 + 1 ↔ 300 * (1000 % 7) < 2 * (1000 - 1000 % 7)) ∧
      (7 ∣ 1000 → c = 300) :=
  C5_running_count 7 0 300 (by decide) (by decide)

/-- C6: for every tick period `p ≥ 1` that divides 1000 and every `k ≥ 1`, in
every run of at least `k` iterations the `k`-th `Running...` line is stamped
with time exactly `k * 1000` ms after the start (the banner is stamped with
the start time and line `i + 1` with `(i + 1) * 1000` ms); it is written by the
step that completes iteration `k`.  The state observed 3500 ms after the start
has the banner and exactly three `Running...` lines, stamped 1000, 2000 and
3000 ms; in every longer run these are the only lines stamped at or before
3500 ms, and the fourth `Running...` line is stamped 4000 ms. -/
theorem C6_emission_times (p t0 k n : Nat) (hp : 1 ≤ p) (hd : p ∣ 1000) (hk : 1 ≤ k)
    (hn : k ≤ n) :
    (∃ s, afterIterations p t0 n = some s ∧
      emissions p t0 s.trace = (t0, bannerText) ::
        (List.range n).map (fun i => (t0 + (i + 1) * 1000, runningText)) ∧
      (runningTimes p t0 s).length = n ∧
      (runningTimes p t0 s)[k - 1]? = some (t0 + k * 1000)) ∧
    (∃ s0 s, afterIterations p t0 (k - 1) = some s0 ∧ step p s0 = some s ∧
      afterIterations p t0 k = some s ∧
      runningCount s0 = k - 1 ∧ runningCount s = k ∧ s.clock = t0 + k * 1000 ∧
      (runningTimes p t0 s0).length = k - 1 ∧
      runningTimes p t0 s = runningTimes p t0 s0 ++ [t0 + k * 1000]) ∧
    (∃ s3, observedAt p t0 (t0 + 3500) 3 = some s3 ∧
      outputLines s3.out = [bannerLine, runningLine, runningLine, runningLine] ∧
      emissions p t0 s3.trace = [(t0, bannerText), (t0 + 1000, runningText),
        (t0 + 2000, runningText), (t0 + 3000, runningText)]) ∧
    (∀ m, 4 ≤ m → ∃ s, afterIterations p t0 m = some s ∧
      emittedBy p t0 (t0 + 3500) s = [(t0, bannerText), (t0 + 1000, runningText),
        (t0 + 2000, runningText), (t0 + 3000, runningText)] ∧
      runningCountBy p t0 (t0 + 3500) s = 3 ∧
      (runningTimes p t0 s)[3]? = some (t0 + 4000)) := by
  have hstep : ∀ n, step p (heartbeatState p t0 n) = some (heartbeatState p t0 (n + 1)) := by
    intro n
    rw [step_heartbeat hp _ (heartbeatState_phase p t0 n)]
    rfl
  have hdiv : 1000 / p * p = 1000 := Nat.div_mul_cancel hd
  have htimes : ∀ n, runningTimes p t0 (heartbeatState p t0 n) =
      (List.range n).map (fun i => t0 + (i + 1) * 1000) := by
    intro n
    rw [runningTimes_heartbeatState, hdiv]
  refine ⟨?_, ?_, ?_, ?_⟩
  · refine ⟨heartbeatState p t0 n, afterIterations_eq hp t0 n, ?_, ?_, ?_⟩
    · rw [emissions_heartbeatState, hdiv]
    · rw [htimes, List.length_map, List.length_range]
    · rw [htimes, List.getElem?_map, List.getElem?_range (by omega)]
      have e : k - 1 + 1 = k := by omega
      simp only [Option.map_some', e]
  · obtain ⟨j, rfl⟩ : ∃ j, k = j + 1 := ⟨k - 1, by omega⟩
    refine ⟨heartbeatState p t0 j, heartbeatState p t0 (j + 1), afterIterations_eq hp t0 j,
      hstep j, afterIterations_eq hp t0 (j + 1), ?_, runningCount_heartbeatState _ _ _,
      heartbeatState_clock_of_dvd hd t0 (j + 1), ?_, ?_⟩
    · rw [runningCount_heartbeatState]
      rfl
    · rw [htimes, List.length_map, List.length_range]
      rfl
    · rw [htimes, htimes, List.range_succ, List.map_append]
      rfl
  · refine ⟨heartbeatState p t0 3, ?_, ?_, ?_⟩
    · rw [observedAt_eq hp, hdiv, if_pos]
      omega
    · rw [outputLines_heartbeatState]
      rfl
    · rw [emissions_heartbeatState, hdiv]
      rfl
  · intro m hm
    have hmin : min m (3500 / (1000 / p * p)) = 3 := by
      rw [hdiv]
      have e : 3500 / 1000 = 3 := by decide
      rw [e]
      omega
    refine ⟨heartbeatState p t0 m, afterIterations_eq hp t0 m, ?_, ?_, ?_⟩
    · rw [emittedBy_heartbeatState p t0 3500 m (by omega), hmin, hdiv]
      rfl
    · rw [runningCountBy_heartbeatState p t0 3500 m (by omega), hmin]
    · rw [htimes, List.getElem?_map, List.getElem?_range (by omega)]
      rfl

/-- Witness of C6 at tick period 10 ms for the second line in a run of five
iterations. -/
theorem C6_emission_times_witness :
    (∃ s, afterIterations 10 0 5 = some s ∧
      emissions 10 0 s.trace = (0, bannerText) ::
        (List.range 5).map (fun i => (0 + (i + 1) * 1000, runningText)) ∧
      (runningTimes 10 0 s).length = 5 ∧
      (runningTimes 10 0 s)[2 - 1]? = some (0 + 2 * 1000)) ∧
    (∃ s0 s, afterIterations 10 0 (2 - 1) = some s0 ∧ step 10 s0 = some s ∧
      afterIterations 10 0 2 = some s ∧
      runningCount s0 = 2 - 1 ∧ runningCount s = 2 ∧ s.clock = 0 + 2 * 1000 ∧
      (runningTimes 10 0 s0).length = 2 - 1 ∧
      runningTimes 10 0 s = runningTimes 10 0 s0 ++ [0 + 2 * 1000]) ∧
    (∃ s3, observedAt 10 0 (0 + 3500) 3 = some s3 ∧
      outputLines s3.out = [bannerLine, runningLine, runningLine, runningLine] ∧
      emissions 10 0 s3.trace = [(0, bannerText), (0 + 1000, runningText),
        (0 + 2000, runningText), (0 + 3000, runningText)]) ∧
    (∀ m, 4 ≤ m → ∃ s, afterIterations 10 0 m = some s ∧
      emittedBy 10 0 (0 + 3500) s = [(0, bannerText), (0 + 1000, runningText),
        (0 + 2000, runningText), (0 + 3000, runningText)] ∧
      runningCountBy 10 0 (0 + 3500) s = 3 ∧
      (runningTimes 10 0 s)[3]? = some (0 + 4000)) :=
  C6_emission_times 10 0 2 5 (by decide) (by decide) (by decide) (by decide)

/-! ## Determinism -/

theorem heartbeatTrace_add (p n j : Nat) :
    heartbeatTrace p (n + j) = heartbeatTrace p n ++
      (List.replicate j [Event.delay (1000 / p), Event.print runningText]).flatten := by
  unfold heartbeatTrace
  rw [List.replicate_add, List.flatten_append, List.cons_append]

theorem heartbeatTrace_take {p n m : Nat} (h : n ≤ m) :
    (heartbeatTrace p m).take n = (heartbeatTrace p n).take n := by
  obtain ⟨j, rfl⟩ : ∃ j, m = n + j := ⟨m - n, by omega⟩
  rw [heartbeatTrace_add, List.take_append_of_le_length]
  rw [heartbeatTrace_length]
  omega

/-- C7: running `app_main` from a cold start is deterministic.  For every tick
period `p ≥ 1` and every `n`, two runs with the same `p`, started at any host
times and observed after any numbers of iterations `m1, m2 ≥ n`, are both
defined and have the same first `n` events; these are the first `n` events of
the trace fixed by `p` alone. -/
theorem C7_deterministic_trace (p t0 t0' n m1 m2 : Nat) (hp : 1 ≤ p)
    (h1 : n ≤ m1) (h2 : n ≤ m2) :
    ∃ s1 s2, afterIterations p t0 m1 = some s1 ∧ afterIterations p t0' m2 = some s2 ∧
      s1.trace.take n = s2.trace.take n ∧
      (s1.trace.take n).length = n ∧
      s1.trace.take n = (heartbeatTrace p n).take n := by
  refine ⟨heartbeatState p t0 m1, heartbeatState p t0' m2, afterIterations_eq hp t0 m1,
    afterIterations_eq hp t0' m2, ?_, ?_, ?_⟩
  · rw [heartbeatState_trace, heartbeatState_trace, heartbeatTrace_take h1,
      heartbeatTrace_take h2]
  · rw [heartbeatState_trace, List.length_take, heartbeatTrace_length]
    omega
  · rw [heartbeatState_trace, heartbeatTrace_take h1]

/-- Witness of C7: two runs at tick period 10 ms, started at host times 0 and
77 ms, compared on their first three events. -/
theorem C7_deterministic_trace_witness :
    ∃ s1 s2, afterIterations 10 0 3 = some s1 ∧ afterIterations 10 77 5 = some s2 ∧
      s1.trace.take 3 = s2.trace.take 3 ∧
      (s1.trace.take 3).length = 3 ∧
      s1.trace.take 3 = (heartbeatTrace 10 3).take 3 :=
  C7_deterministic_trace 10 0 77 3 3 5 (by decide) (by decide) (by decide)

end EspCsi
